import Mathlib

/-!
Verification development for the mosaic-js template composition engine.

The definitions below are a shallow embedding of the TypeScript sources:

* `src/utils/normalizeToRelativeSelector.ts` — selector validation and
  normalization (`isValidTemplateSelector`, `normalizeSelector`,
  `normalizeToRelativeSelector`);
* `src/utils/getTemplateContent.ts` — content lookup (`getTemplateContent`);
* `src/utils/parseMarkdownTemplate.ts` — fragment parsing and reference
  extraction (`parseMarkdown`, `extractVariables`,
  `extractReferencesFromContent`);
* `src/utils/buildTemplateTree.ts` — the expand/flatten engine
  (`getNodeFromSelector`, `filterLoopedReferences`, `attachChildren`,
  `flattenChildrenAndExpandContent`, `extractTemplateVariables`,
  `buildTemplateTree`) and `Mosaic.compose`;
* the relevant fragment of the `mustache` library: interpolation of
  double-brace tokens with HTML escaping (`render`, `escapeHtml`), which is
  what `Mustache.render` performs on the templates this engine produces.

Modelling conventions:

* The file system is an association list `Store` from canonical paths
  (relative paths without the `.md` extension) to stored files; a stored
  file is its gray-matter parse, i.e. a frontmatter key/value list plus the
  markdown body.  `fs.existsSync`/`readFileSync` become list lookup.
* The `Effect` wrappers are erased: every function here is the pure
  computation performed by the corresponding effectful function.
  `Console.log`/`Console.warn` diagnostics are side channel output and are
  not part of any return value, so they are dropped.
* `Mustache.render` throws a parse error on section/unopened-section/
  set-delimiter tags; this is modelled by `Except.error`.  Matched section
  pairs (which would render with section semantics) are not modelled and
  also produce `Except.error`; no template built by this engine renders a
  matched section.
* JavaScript loops that are not structurally recursive are written with an
  explicit character budget (`fuel`); every caller passes a budget larger
  than the input length, which the scanners never exhaust since each step
  consumes at least one character.
* The unbounded `while` loop of `expandAndFlattenRecursively` is modelled
  by `expandAndFlattenFuel`, which returns `none` when the iteration budget
  is exhausted (the real loop would still be running).
-/

/-- Characters for the two brace code points, used throughout the scanners. -/
def obrace : Char := Char.ofNat 123

/-- Closing brace character. -/
def cbrace : Char := Char.ofNat 125

/-- Apostrophe character. -/
def apos : Char := Char.ofNat 39

/-- Backtick character. -/
def btick : Char := Char.ofNat 96

/-- JavaScript whitespace (the common code points matched by the regex
class `\s` that can occur in markdown templates). -/
def isWsChar (c : Char) : Bool :=
  c = ' ' || c = Char.ofNat 9 || c = Char.ofNat 10 || c = Char.ofNat 13 ||
  c = Char.ofNat 11 || c = Char.ofNat 12

/-- Character class `[a-zA-Z0-9_-]` used by the selector grammar. -/
def isSegChar (c : Char) : Bool :=
  (('a' ≤ c && c ≤ 'z') || ('A' ≤ c && c ≤ 'Z') || ('0' ≤ c && c ≤ '9')
    || c = '_' || c = '-')

/-- Membership test on a list of strings, mirroring JavaScript
`Array.prototype.includes`. -/
def strMem (s : String) (l : List String) : Bool :=
  match l with
  | [] => false
  | x :: rest => x = s || strMem s rest

/-- Lookup in an association list where a later binding for the same key
shadows an earlier one, matching JavaScript object semantics (an object
built by spreads or repeated assignment keeps the last value written). -/
def lookupLast {α : Type} (l : List (String × α)) (k : String) : Option α :=
  match l with
  | [] => none
  | e :: rest =>
    match lookupLast rest k with
    | some v => some v
    | none => if e.1 = k then some e.2 else none

/-- Deduplication keeping the first occurrence, mirroring
`[...new Set(list)]`. -/
def dedupFirst : List String → List String
  | [] => []
  | x :: rest => x :: (dedupFirst rest).filter (fun y => y ≠ x)

/-- Drop leading JavaScript whitespace. -/
def dropWs (l : List Char) : List Char := l.dropWhile isWsChar

/-- Drop trailing JavaScript whitespace. -/
def dropTrailingWs (l : List Char) : List Char :=
  (l.reverse.dropWhile isWsChar).reverse

/-- String.prototype.trim on a character list. -/
def trimChars (l : List Char) : List Char := dropTrailingWs (dropWs l)

/-- Entity expansion of one character, per the `entityMap` of mustache.js:
the characters `& < > " ' / = ` and backtick become HTML entities, all
others are kept. -/
def entityChar (c : Char) : List Char :=
  if c = '&' then "&amp;".data
  else if c = '<' then "&lt;".data
  else if c = '>' then "&gt;".data
  else if c = '"' then "&quot;".data
  else if c = apos then "&#39;".data
  else if c = '/' then "&#x2F;".data
  else if c = btick then "&#x60;".data
  else if c = '=' then "&#x3D;".data
  else [c]

/-- Mustache's default escape function on a character list. -/
def escList (l : List Char) : List Char := (l.map entityChar).flatten

/-- Mustache's default escape function `escapeHtml`. -/
def escapeHtml (s : String) : String := (escList s.data).asString

/-- Split a character list at the first occurrence of the opening tag
delimiter (two adjacent opening braces): returns the text before it and
the text after it, or `none` when the delimiter does not occur. -/
def splitAtOpen : List Char → Option (List Char × List Char)
  | [] => none
  | c :: cs =>
    if c = obrace then
      match cs with
      | c2 :: cs2 =>
        if c2 = obrace then some ([], cs2)
        else (splitAtOpen cs).map (fun pr => (c :: pr.1, pr.2))
      | [] => none
    else (splitAtOpen cs).map (fun pr => (c :: pr.1, pr.2))

/-- Split a character list at the first occurrence of the closing tag
delimiter (two adjacent closing braces). -/
def splitAtClose : List Char → Option (List Char × List Char)
  | [] => none
  | c :: cs =>
    if c = cbrace then
      match cs with
      | c2 :: cs2 =>
        if c2 = cbrace then some ([], cs2)
        else (splitAtClose cs).map (fun pr => (c :: pr.1, pr.2))
      | [] => none
    else (splitAtClose cs).map (fun pr => (c :: pr.1, pr.2))

/-- Split a character list at the first occurrence of three adjacent
closing braces (the closing delimiter of a triple-mustache tag). -/
def splitAtTripleClose : List Char → Option (List Char × List Char)
  | [] => none
  | c :: cs =>
    if c = cbrace then
      match cs with
      | c2 :: c3 :: cs3 =>
        if c2 = cbrace && c3 = cbrace then some ([], cs3)
        else (splitAtTripleClose cs).map (fun pr => (c :: pr.1, pr.2))
      | _ => none
    else (splitAtTripleClose cs).map (fun pr => (c :: pr.1, pr.2))

/-- Substitution context for a mustache render: a JavaScript object mapping
token names to string values. -/
abbrev MustacheCtx := List (String × String)

/-- Error text used when a render meets a section-type tag.  mustache.js
throws `Unclosed section` for the unmatched sections produced by this
engine; matched sections are not modelled (see the file header). -/
def sectionTagError : String := "mustache: section tag"

/-- Error text for an unopened section-close tag. -/
def unopenedSectionError : String := "mustache: unopened section"

/-- Error text for a set-delimiter tag (not produced by this engine). -/
def delimiterError : String := "mustache: set delimiter"

/-- Error text mirroring mustache.js `Unclosed tag`. -/
def unclosedTagError : String := "mustache: unclosed tag"

/-- Core of `Mustache.render` for the template language this engine
emits: scan to the next double-brace token, consume the whitespace the
opening-tag regex `\x7b\x7b\s*` absorbs, dispatch on the sigil character
exactly as mustache.js does, look the (whitespace-trimmed) name up in the
context, and interpolate the HTML-escaped value (raw for `&` and triple
tags), with a missing name rendering as the empty string.  Section-type
tags produce an error (mustache.js throws on every unmatched section, the
only kind this engine can produce).  The budget `fuel` exceeds the
template length at every call site and is never exhausted. -/
def renderAux (ctx : MustacheCtx) : Nat → List Char → Except String (List Char)
  | 0, _ => .error "mustache: out of fuel"
  | fuel + 1, l =>
    match splitAtOpen l with
    | none => .ok l
    | some (pre, rest) =>
      let r1 := dropWs rest
      match r1 with
      | [] => .error unclosedTagError
      | c :: r2 =>
        if c = '#' || c = '^' then .error sectionTagError
        else if c = '/' then .error unopenedSectionError
        else if c = '=' then .error delimiterError
        else if c = '!' || c = '>' then
          match splitAtClose r2 with
          | none => .error unclosedTagError
          | some (_, post) => (renderAux ctx fuel post).map (fun t => pre ++ t)
        else if c = '&' then
          match splitAtClose (dropWs r2) with
          | none => .error unclosedTagError
          | some (inner, post) =>
            (renderAux ctx fuel post).map (fun t =>
              pre ++ ((lookupLast ctx (dropTrailingWs inner).asString).getD "").data ++ t)
        else if c = obrace then
          match splitAtTripleClose (dropWs r2) with
          | none => .error unclosedTagError
          | some (inner, post) =>
            (renderAux ctx fuel post).map (fun t =>
              pre ++ ((lookupLast ctx (dropTrailingWs inner).asString).getD "").data ++ t)
        else
          match splitAtClose r1 with
          | none => .error unclosedTagError
          | some (inner, post) =>
            (renderAux ctx fuel post).map (fun t =>
              pre ++ escList ((lookupLast ctx (dropTrailingWs inner).asString).getD "").data ++ t)

/-- `Mustache.render template ctx` restricted to interpolation tags (the
only tags this engine feeds it, apart from the erroring section tags). -/
def render (s : String) (ctx : MustacheCtx) : Except String String :=
  (renderAux ctx (s.data.length + 1) s.data).map List.asString

/-- A stored markdown file, as gray-matter parses it: the frontmatter
key/value pairs (empty list when the file has no frontmatter block) and
the markdown body.  gray-matter is an external collaborator, so its
output is the representation. -/
structure StoredFile where
  fm : List (String × String)
  body : String
deriving DecidableEq

/-- The template directory: an association of canonical relative paths
(no `.md` extension, `/`-separated) to stored files, in stable
enumeration (filesystem) order. -/
abbrev Store := List (String × StoredFile)

/-- File lookup by exact canonical path, modelling
`fs.existsSync`/`fs.readFileSync` on `path.join(dir, selector + ".md")`. -/
def storeFind (store : Store) (p : String) : Option StoredFile :=
  match store with
  | [] => none
  | e :: rest => if e.1 = p then some e.2 else storeFind rest p

/-- Frontmatter `id` field of a stored file, when present
(`matter(content).data.id`). -/
def fmId (f : StoredFile) : Option String :=
  match f.fm.find? (fun kv => kv.1 = "id") with
  | some kv => some kv.2
  | none => none

/-- `findMarkdownFileById`: first file in enumeration order whose
frontmatter `id` equals the given id, returning its canonical path
(the real function returns the absolute file path, later converted back
to the canonical relative path; the store keys are already canonical). -/
def findMarkdownFileById (store : Store) (id : String) : Option String :=
  match store with
  | [] => none
  | e :: rest =>
    if fmId e.2 = some id then some e.1 else findMarkdownFileById rest id

/-- Split a character list on `/` separators, matching
`String.prototype.split` with a one-character separator (an empty input
yields one empty part, and empty parts are kept). -/
def splitOnSlashAux (cur : List Char) : List Char → List (List Char)
  | [] => [cur.reverse]
  | c :: cs =>
    if c = '/' then cur.reverse :: splitOnSlashAux [] cs
    else splitOnSlashAux (c :: cur) cs

/-- Segments of a path between `/` separators. -/
def splitOnSlash (l : List Char) : List (List Char) := splitOnSlashAux [] l

/-- Drop the one-character sigil of a root or id selector
(`selector.slice(1)`). -/
def stripSigil (s : String) : String := (s.data.drop 1).asString

/-- Selector grammar: `relative` = segments of `[a-zA-Z0-9_-]+` joined by
`/`; regex `^[a-zA-Z0-9_-]+(\/[a-zA-Z0-9_-]+)*$`. -/
def validRelative (s : String) : Bool :=
  (splitOnSlash s.data).all (fun p => !p.isEmpty && p.all isSegChar)

/-- Selector grammar: `root` = `@` followed by a relative path. -/
def validRoot (s : String) : Bool :=
  match s.data with
  | c :: rest => c = '@' && (splitOnSlash rest).all (fun p => !p.isEmpty && p.all isSegChar)
  | [] => false

/-- Selector grammar: `id` = `#` followed by exactly one segment. -/
def validId (s : String) : Bool :=
  match s.data with
  | c :: rest => c = '#' && !rest.isEmpty && rest.all isSegChar
  | [] => false

/-- The three selector types of `TemplateSelectorType`. -/
inductive SelectorType where
  | relative
  | root
  | id
deriving DecidableEq

/-- `isValidTemplateSelector`: classify a selector, trying the relative,
root and id grammars in the order of the source. -/
def classifySelector (s : String) : Option SelectorType :=
  if validRelative s then some .relative
  else if validRoot s then some .root
  else if validId s then some .id
  else none

/-- Validity of a selector (`isValidTemplateSelector(...).valid`). -/
def isValidTemplateSelector (s : String) : Bool :=
  (classifySelector s).isSome

/-- `normalizeSelector`: id selectors search the tree by frontmatter id,
root selectors drop the `@` prefix, relative selectors are returned
as-is (the function receives no current-path information at all). -/
def normalizeSelector (store : Store) (s : String) (t : SelectorType) :
    Option String :=
  match t with
  | .id => findMarkdownFileById store (stripSigil s)
  | .root => some (stripSigil s)
  | .relative => some s

/-- `normalizeToRelativeSelector`: validate, then normalize; `null` for an
invalid selector or a failed id search. -/
def normalizeToRelativeSelector (store : Store) (s : String) : Option String :=
  match classifySelector s with
  | some t => normalizeSelector store s t
  | none => none

/-- `getTemplateContent`: id selectors read the file found by id search;
root selectors drop `@` and the remainder, like relative selectors, is
joined to the template directory root (never to the referencing
fragment's directory). -/
def getTemplateContent (store : Store) (sel : String) (t : SelectorType) :
    Option StoredFile :=
  match t with
  | .id =>
    match findMarkdownFileById store (stripSigil sel) with
    | some p => storeFind store p
    | none => none
  | .root => storeFind store (stripSigil sel)
  | .relative => storeFind store sel

/-- Variable-token test `/^\$[a-zA-Z0-9_\-]+$/` applied to a trimmed
token body. -/
def isVariableToken (s : String) : Bool :=
  match s.data with
  | c :: rest => c = '$' && !rest.isEmpty && rest.all isSegChar
  | [] => false

/-- One attempt of the variable regex `\x7b\x7b\s*\$([a-zA-Z0-9_\-]+)\s*\x7d\x7d`
anchored at the head of the list: on success returns the captured name
and the text after the match. -/
def tryVarToken (l : List Char) : Option (String × List Char) :=
  match l with
  | c1 :: c2 :: rest =>
    if c1 = obrace && c2 = obrace then
      match dropWs rest with
      | d :: r2 =>
        if d = '$' then
          let run := r2.takeWhile isSegChar
          if run.isEmpty then none
          else
            match dropWs (r2.drop run.length) with
            | e1 :: e2 :: r3 =>
              if e1 = cbrace && e2 = cbrace then some (run.asString, r3)
              else none
            | _ => none
        else none
      | [] => none
    else none
  | _ => none

/-- `extractVariables`: global scan of the variable regex, pushing every
captured name in match order (the source does not deduplicate). -/
def extractVariablesAux : Nat → List Char → List String
  | 0, _ => []
  | _ + 1, [] => []
  | fuel + 1, c :: cs =>
    match tryVarToken (c :: cs) with
    | some (name, rest) => name :: extractVariablesAux fuel rest
    | none => extractVariablesAux fuel cs

/-- Variable names declared in a body (`extractVariables`). -/
def extractVariables (body : String) : List String :=
  extractVariablesAux (body.data.length + 1) body.data

/-- One attempt of the reference regex `\x7b\x7b\s*([^\x7d]+)\s*\x7d\x7d`
anchored at the head of the list: the token body is the maximal run of
non-closing-brace characters after the two opening braces, which must be
nonempty and be followed immediately by the two closing braces.  On
success returns the trimmed token body (the JavaScript code trims the
capture), the length of the whole match, and the text after it. -/
def tryRefToken (l : List Char) : Option (String × Nat × List Char) :=
  match l with
  | c1 :: c2 :: rest =>
    if c1 = obrace && c2 = obrace then
      let run := rest.takeWhile (fun c => c ≠ cbrace)
      if run.isEmpty then none
      else
        match rest.drop run.length with
        | e1 :: e2 :: r3 =>
          if e1 = cbrace && e2 = cbrace then
            some ((trimChars run).asString, run.length + 4, r3)
          else none
        | _ => none
    else none
  | _ => none

/-- Accumulated result of the reference-extraction scan of
`extractReferencesFromContent`: the normalized references pushed, the
original token bodies scheduled for loop removal, and the content
replacements (start index, end index, replacement text). -/
structure RefScanResult where
  refs : List String
  toRemove : List String
  repls : List (Nat × Nat × String)
deriving DecidableEq

/-- The `while ((match = referenceRegex.exec(content)))` loop of
`extractReferencesFromContent`: at each match, variable tokens are
skipped; otherwise the token body is normalized (falling back to the
literal text when normalization yields `null`), checked for
self-reference and ancestor loops when loop removal is on, and either
scheduled for removal or pushed, recording a normalization replacement
when content rewriting is on. -/
def scanRefs (store : Store) (removeLooped : Bool) (currentPath : Option String)
    (ancestors : List String) (normalizeInContent : Bool) :
    Nat → Nat → List Char → RefScanResult
  | 0, _, _ => ⟨[], [], []⟩
  | _ + 1, _, [] => ⟨[], [], []⟩
  | fuel + 1, pos, c :: cs =>
    match tryRefToken (c :: cs) with
    | none => scanRefs store removeLooped currentPath ancestors normalizeInContent fuel (pos + 1) cs
    | some (ref, len, rest) =>
      if isVariableToken ref then
        scanRefs store removeLooped currentPath ancestors normalizeInContent fuel (pos + len) rest
      else
        let nr := (normalizeToRelativeSelector store ref).getD ref
        match removeLooped, currentPath with
        | true, some p =>
          if nr = p then
            let st := scanRefs store removeLooped currentPath ancestors normalizeInContent fuel (pos + len) rest
            ⟨st.refs, ref :: st.toRemove, st.repls⟩
          else if strMem nr ancestors then
            let st := scanRefs store removeLooped currentPath ancestors normalizeInContent fuel (pos + len) rest
            ⟨st.refs, ref :: st.toRemove, st.repls⟩
          else
            let st := scanRefs store removeLooped currentPath ancestors normalizeInContent fuel (pos + len) rest
            ⟨nr :: st.refs, st.toRemove,
              if normalizeInContent then
                (pos, pos + len, ("\x7b\x7b " ++ nr ++ " \x7d\x7d")) :: st.repls
              else st.repls⟩
        | _, _ =>
          let st := scanRefs store removeLooped currentPath ancestors normalizeInContent fuel (pos + len) rest
          ⟨nr :: st.refs, st.toRemove,
            if normalizeInContent then
              (pos, pos + len, ("\x7b\x7b " ++ nr ++ " \x7d\x7d")) :: st.repls
            else st.repls⟩

/-- One attempt of the removal regex `\x7b\x7b\s*REF\s*\x7d\x7d` (with REF
escaped to a literal) anchored at the head of the list: on success
returns the text after the match. -/
def tryTokenMatch (ref : String) (l : List Char) : Option (List Char) :=
  match l with
  | c1 :: c2 :: rest =>
    if c1 = obrace && c2 = obrace then
      let r1 := dropWs rest
      if ref.data.isPrefixOf r1 then
        match dropWs (r1.drop ref.data.length) with
        | e1 :: e2 :: r3 =>
          if e1 = cbrace && e2 = cbrace then some r3 else none
        | _ => none
      else none
    else none
  | _ => none

/-- Global replacement of every `\x7b\x7b\s*REF\s*\x7d\x7d` token by the
empty string (`content.replace(regex, "")`). -/
def removeTokAux (ref : String) : Nat → List Char → List Char
  | 0, l => l
  | _ + 1, [] => []
  | fuel + 1, c :: cs =>
    match tryTokenMatch ref (c :: cs) with
    | some rest => removeTokAux ref fuel rest
    | none => c :: removeTokAux ref fuel cs

/-- Strip every token for `ref` from the content. -/
def removeTokenAll (l : List Char) (ref : String) : List Char :=
  removeTokAux ref (l.length + 1) l

/-- Apply the recorded normalization replacements from the last to the
first (the source splices in reverse so earlier indices stay valid). -/
def applyReplacements (l : List Char) (repls : List (Nat × Nat × String)) :
    List Char :=
  repls.foldr (fun r acc => acc.take r.1 ++ r.2.2.data ++ acc.drop r.2.1) l

/-- `extractReferencesFromContent`: run the scan, strip the tokens of
looped references when loop removal is on, apply the normalization
replacements when content rewriting is on, and return the deduplicated
references with the updated content. -/
def extractReferencesFromContent (store : Store) (content : String)
    (currentPath : Option String) (ancestors : List String)
    (removeLooped : Bool) (normalizeInContent : Bool) :
    List String × String :=
  let st := scanRefs store removeLooped currentPath ancestors normalizeInContent
    (content.data.length + 1) 0 content.data
  let c1 := if removeLooped && !st.toRemove.isEmpty then
      st.toRemove.foldl removeTokenAll content.data
    else content.data
  let c2 := if normalizeInContent && !st.repls.isEmpty then
      applyReplacements c1 st.repls
    else c1
  (dedupFirst st.refs, c2.asString)

/-- A node of the template tree (`ParsedMarkdownTemplate` plus the
`ancestors` chain of `TemplateTreeNode`; the transient `children` array
is passed alongside, see `attachChildren`).  The field `varNames` models
the interface field named `variables`, which Lean reserves. -/
structure TemplateTreeNode where
  path : String
  frontmatter : Option (List (String × String))
  content : String
  varNames : List String
  references : List String
  ancestors : List String
deriving DecidableEq

/-- `parseMarkdown`: fetch the content for the selector — always with the
hardcoded `relative` type of `getContentRelative` — and either parse it
(frontmatter split, variable extraction, reference extraction with
content normalization) or degrade to the empty fragment when absent. -/
def parseMarkdown (store : Store) (sel : String) : TemplateTreeNode :=
  match getTemplateContent store sel .relative with
  | none =>
    { path := sel, frontmatter := none, content := "", varNames := [],
      references := [], ancestors := [] }
  | some f =>
    let fm := if f.fm.isEmpty then none else some f.fm
    let vars := extractVariables f.body
    let pr := extractReferencesFromContent store f.body none [] false true
    { path := sel, frontmatter := fm, content := pr.2, varNames := vars,
      references := pr.1, ancestors := [] }

/-- Remove the given references from a node: filter them out of the
references array and strip each of their tokens from the content
(`removeReferenceFromNode`). -/
def removeReferenceFromNode (node : TemplateTreeNode)
    (referencesToRemove : List String) : TemplateTreeNode :=
  { node with
    references := node.references.filter (fun r => !strMem r referencesToRemove),
    content := (referencesToRemove.foldl removeTokenAll node.content.data).asString }

/-- `filterLoopedReferences`: drop a self-reference, then drop every
reference that is also an ancestor, stripping the corresponding tokens
from the content each time. -/
def filterLoopedReferences (node : TemplateTreeNode) : TemplateTreeNode :=
  let n1 := if strMem node.path node.references then
      removeReferenceFromNode node [node.path]
    else node
  let looped := n1.references.filter (fun r => strMem r node.ancestors)
  if looped.isEmpty then n1 else removeReferenceFromNode n1 looped

/-- `getNodeFromSelector`: parse the selector, attach the ancestor chain,
and sanitize with loop filtering. -/
def getNodeFromSelector (store : Store) (sel : String)
    (ancestors : List String) : TemplateTreeNode :=
  filterLoopedReferences { parseMarkdown store sel with ancestors := ancestors }

/-- The session variable state a `compose` call reads: the accumulated
global variables and the path-scoped overrides of the `Mosaic` instance
(`MosaicVariables`). -/
abbrev VariableSet := List (String × String)

/-- Override map from selector keys to variable sets. -/
abbrev OverrideMap := List (String × VariableSet)

/-- `normalizeOverridesPaths`: normalize every selector key to its
canonical relative path, dropping entries whose key fails to normalize
(`Object.fromEntries(results.filter(...))`). -/
def normalizeOverridesPaths (store : Store) (overrides : OverrideMap) :
    OverrideMap :=
  overrides.filterMap (fun e =>
    match normalizeToRelativeSelector store e.1 with
    | some nk => some (nk, e.2)
    | none => none)

/-- `extractTemplateVariables`: merge the global variables with the
normalized override entry for the current path (overrides win on key
collision) and prefix every key with the `$` substitution sigil. -/
def extractTemplateVariables (store : Store) (globals : VariableSet)
    (overrides : OverrideMap) (currentPath : String) : VariableSet :=
  let normalizedOverrides := normalizeOverridesPaths store overrides
  let pathOverrides := (lookupLast normalizedOverrides currentPath).getD []
  let merged := globals ++ pathOverrides
  merged.map (fun kv => ("$" ++ kv.1, kv.2))

/-- Sequential effectful map, modelling `Effect.forEach` over the
references of a node. -/
def mapMExcept {α β : Type} (f : α → Except String β) :
    List α → Except String (List β)
  | [] => .ok []
  | x :: rest => do
    let y ← f x
    let ys ← mapMExcept f rest
    pure (y :: ys)

/-- `attachChildren`: for each reference of the node, in order, build the
child node with the extended ancestor chain and immediately expand the
child's content with the child's own path-specific variables through
`Mustache.render`.  Returns the node together with its children list
(the transient `children` field of the source). -/
def attachChildren (store : Store) (globals : VariableSet)
    (overrides : OverrideMap) (node : TemplateTreeNode) :
    Except String (TemplateTreeNode × List TemplateTreeNode) := do
  let children ← mapMExcept (fun ref => do
      let childNode := getNodeFromSelector store ref (node.ancestors ++ [node.path])
      let childTemplateVariables :=
        extractTemplateVariables store globals overrides childNode.path
      let expandedContent ← render childNode.content childTemplateVariables
      pure { childNode with content := expandedContent })
    node.references
  pure (node, children)

/-- `flattenChildrenAndExpandContent`: build the mustache context mapping
each child's path to its content, expand the parent content with it,
re-extract references from the expanded content with loop removal
against the parent's path and ancestors, and clear the children. -/
def flattenChildrenAndExpandContent (store : Store)
    (node : TemplateTreeNode) (children : List TemplateTreeNode) :
    Except String TemplateTreeNode :=
  if children.isEmpty then .ok node
  else do
    let mustacheContext : MustacheCtx := children.map (fun c => (c.path, c.content))
    let expandedContent ← render node.content mustacheContext
    let pr :=
      extractReferencesFromContent store expandedContent (some node.path)
        node.ancestors true false
    pure { node with content := pr.2, references := pr.1 }

/-- One iteration of the expand-then-flatten loop: attach children, then
flatten them into the parent. -/
def loopStep (store : Store) (globals : VariableSet) (overrides : OverrideMap)
    (node : TemplateTreeNode) : Except String TemplateTreeNode := do
  let (n, children) ← attachChildren store globals overrides node
  flattenChildrenAndExpandContent store n children

/-- `expandAndFlattenRecursively`: iterate `loopStep` while the node still
has references.  The real loop is unbounded; `none` reports that the
iteration budget ran out with references still present. -/
def expandAndFlattenFuel (store : Store) (globals : VariableSet)
    (overrides : OverrideMap) : Nat → TemplateTreeNode →
    Except String (Option TemplateTreeNode)
  | 0, _ => .ok none
  | fuel + 1, node =>
    if node.references.isEmpty then .ok (some node)
    else do
      let n ← loopStep store globals overrides node
      expandAndFlattenFuel store globals overrides fuel n

/-- `buildTemplateTree`: initial node from the root selector (empty
ancestor chain) followed by the expand/flatten iteration. -/
def buildTemplateTree (store : Store) (globals : VariableSet)
    (overrides : OverrideMap) (fuel : Nat) (rootSelector : String) :
    Except String (Option TemplateTreeNode) :=
  expandAndFlattenFuel store globals overrides fuel
    (getNodeFromSelector store rootSelector [])

/-- `Mosaic.compose`: reject a syntactically invalid root selector (the
single fatal failure), otherwise build the tree and return the final
content.  `Except.error` models an exception escaping `Effect.runSync`;
`Option.none` models a loop iteration budget that ran out. -/
def composeFuel (store : Store) (globals : VariableSet)
    (overrides : OverrideMap) (fuel : Nat) (templateSelector : String) :
    Except String (Option String) :=
  if isValidTemplateSelector templateSelector then
    (buildTemplateTree store globals overrides fuel templateSelector).map
      (Option.map (fun n => n.content))
  else .error "InvalidTemplateSelectorError"

/-! ## Concrete fragment stores used by the claim theorems -/

/-- Store with a three-level reference chain: `a` references `b`, `b`
references `c`, and `c` holds the body `deep`. -/
def storeC1 : Store :=
  [("a", ⟨[], "\x7b\x7b b \x7d\x7d"⟩),
   ("b", ⟨[], "\x7b\x7b c \x7d\x7d"⟩),
   ("c", ⟨[], "deep"⟩)]

/-- Store for the end-to-end scenario of the spec: root body
`Hi \x7b\x7b $name \x7d\x7d` newline `\x7b\x7b other \x7d\x7d`, sibling
`other` with body `nested`. -/
def storeC2 : Store :=
  [("root", ⟨[], "Hi \x7b\x7b $name \x7d\x7d\n\x7b\x7b other \x7d\x7d"⟩),
   ("other", ⟨[], "nested"⟩)]

/-- Store with a fragment whose whole body is one variable token. -/
def storeC2b : Store := [("solo", ⟨[], "X \x7b\x7b $name \x7d\x7d Y"⟩)]

/-- Store for the divergence scenario: `r` references `a`, and `a`'s body
is the variable token for `v`. -/
def storeC3 : Store :=
  [("r", ⟨[], "\x7b\x7b a \x7d\x7d"⟩),
   ("a", ⟨[], "\x7b\x7b $v \x7d\x7d"⟩)]

/-- Session globals for the divergence scenario: the value of `v` is
itself a reference token for `a`. -/
def varsC3 : VariableSet := [("v", "\x7b\x7b a \x7d\x7d")]

/-- The node the expand/flatten loop reaches for `compose("r")` over
`storeC3`: one reference to `a` and the untouched token as content. -/
def nodeC3r : TemplateTreeNode :=
  { path := "r", frontmatter := none, content := "\x7b\x7b a \x7d\x7d",
    varNames := [], references := ["a"], ancestors := [] }

/-- Store with a fragment at `company/policies/main` referencing
`shared/footer`, and the footer fragment placed at
`company/policies/shared/footer` (where directory-relative resolution
would find it); there is no root-level `shared/footer`. -/
def storeC4 : Store :=
  [("company/policies/main", ⟨[], "main-text \x7b\x7b shared/footer \x7d\x7d"⟩),
   ("company/policies/shared/footer", ⟨[], "FOOTER"⟩)]

/-- Store with one fragment at path `p` (body `hello`) and one fragment
with frontmatter id `iq` (body `idbody`). -/
def storeC5 : Store :=
  [("p", ⟨[], "hello"⟩), ("q", ⟨[("id", "iq")], "idbody"⟩)]

/-- Store whose only fragment references the id `#nope`, which no
fragment carries. -/
def storeC6 : Store := [("main", ⟨[], "A \x7b\x7b #nope \x7d\x7d B"⟩)]

/-! ## Claim theorems -/

/-- C1.  The claim states that composition is recursive to arbitrary
depth: a grandchild reference appearing in a substituted child body is
re-extracted and expanded, so the grandchild's body reaches the final
output.  The code contradicts this: `attachChildren` pushes each child's
content through `Mustache.render` with only the variable context, which
consumes the grandchild's reference token and replaces it by the empty
string, so `compose("a")` over `a → b → c` returns `""` and the
grandchild body `deep` never appears, although `compose("c")` alone
returns `deep`. -/
theorem claim_c1_code_bug :
    composeFuel storeC1 [] [] 9 "a" = .ok (some "") ∧
    composeFuel storeC1 [] [] 9 "c" = .ok (some "deep") ∧
    storeFind storeC1 "b" = some ⟨[], "\x7b\x7b c \x7d\x7d"⟩ := by
  exact ⟨rfl, rfl, rfl⟩

/-- C2.  The claim states `compose(root) = "Hi World\nnested"` for the
spec's end-to-end scenario, and that variable tokens with no matching
key render as the empty string and are never left literal.  The code
contradicts both parts: the root node's own variables are never
substituted (`flattenChildrenAndExpandContent` renders the parent with
the children context only), so the scenario yields `"Hi \nnested"`, and
a fragment with no references at all skips the loop entirely, leaving
its variable tokens literal. -/
theorem claim_c2_code_bug :
    composeFuel storeC2 [("name", "World")] [] 9 "root" = .ok (some "Hi \nnested") ∧
    composeFuel storeC2b [("name", "World")] [] 9 "solo" =
      .ok (some "X \x7b\x7b $name \x7d\x7d Y") := by
  exact ⟨rfl, rfl⟩

/-- C3.  The claim states that the expand-then-flatten loop terminates
for every fragment graph because each iteration removes cyclic
references or moves to strictly deeper fragments.  The code contradicts
this: with the global variable `v = "(token for a)"`, fragment `a` whose
body is the variable token for `v`, and root `r` referencing `a`, one
loop iteration maps the node for `r` to itself with its references still
nonempty, so the `while` loop never exits (every iteration budget is
exhausted). -/
theorem claim_c3_code_bug :
    getNodeFromSelector storeC3 "r" [] = nodeC3r ∧
    loopStep storeC3 varsC3 [] nodeC3r = .ok nodeC3r ∧
    nodeC3r.references = ["a"] ∧
    composeFuel storeC3 varsC3 [] 20 "r" = .ok none := by
  exact ⟨rfl, rfl, rfl, rfl⟩

/-- C5.  The claim states that `compose("@p")` strips the `@` and
composes the fragment at `p`, and `compose("#i")` composes the fragment
whose metadata id is `i`.  The code contradicts this: `parseMarkdown`
fetches the root content through `getContentRelative`, which hardcodes
the `relative` selector type, so `"@p"` and `"#iq"` are looked up as the
literal paths `@p` / `#iq`, found absent, and degraded to the empty
fragment, while `compose("p")` returns the fragment body. -/
theorem claim_c5_code_bug :
    composeFuel storeC5 [] [] 9 "@p" = .ok (some "") ∧
    composeFuel storeC5 [] [] 9 "p" = .ok (some "hello") ∧
    composeFuel storeC5 [] [] 9 "#iq" = .ok (some "") ∧
    findMarkdownFileById storeC5 "iq" = some "q" := by
  exact ⟨rfl, rfl, rfl, rfl⟩

/-- C6.  The claim states that a reference whose target is absent —
including an id-form reference matching no fragment, whose literal
selector text is retained — renders as the empty string with a warning,
and that no recoverable anomaly crosses the compose boundary as an
exception.  The code contradicts this for the id form: the literal
token for `#nope` is left in the content, `Mustache.render` parses `#`
as a section-open sigil and throws an unclosed-section error, which
escapes `Effect.runSync` and aborts the compose call. -/
theorem claim_c6_code_bug :
    composeFuel storeC6 [] [] 9 "main" = .error sectionTagError ∧
    (parseMarkdown storeC6 "main").references = ["#nope"] ∧
    findMarkdownFileById storeC6 "nope" = none := by
  exact ⟨rfl, rfl, rfl⟩

/-- C4 (counterexample).  The claim states that a relative reference
inside `company/policies/main` such as `shared/footer` normalizes to
`company/policies/shared/footer` (directory-relative).  The code
extracts it as the unchanged root-relative path `shared/footer`, so the
fragment stored at `company/policies/shared/footer` is never found and
the reference renders empty. -/
theorem claim_c4_counterexample :
    (parseMarkdown storeC4 "company/policies/main").references = ["shared/footer"] ∧
    "shared/footer" ≠ "company/policies/shared/footer" ∧
    composeFuel storeC4 [] [] 9 "company/policies/main" = .ok (some "main-text ") ∧
    storeFind storeC4 "company/policies/shared/footer" = some ⟨[], "FOOTER"⟩ := by
  exact ⟨rfl, by decide, rfl, rfl⟩

/-- C4 (amended).  Every relative-form reference expression is used as a
canonical path unchanged — `normalizeToRelativeSelector` receives no
current-path information and returns a valid relative selector as-is —
and relative content lookup joins the path to the template directory
root. -/
theorem claim_c4_amended (store : Store) (ref : String)
    (h : validRelative ref = true) :
    normalizeToRelativeSelector store ref = some ref ∧
    getTemplateContent store ref .relative = storeFind store ref := by
  refine ⟨?_, rfl⟩
  unfold normalizeToRelativeSelector classifySelector
  simp [h, normalizeSelector]

/-- C4 (amended, witness). -/
theorem claim_c4_amended_witness :
    validRelative "shared/footer" = true ∧
    (normalizeToRelativeSelector storeC4 "shared/footer" = some "shared/footer" ∧
     getTemplateContent storeC4 "shared/footer" .relative =
       storeFind storeC4 "shared/footer") :=
  ⟨by decide, claim_c4_amended storeC4 "shared/footer" (by decide)⟩

/-! ## Supporting lemmas -/

/-- Appending association lists: the later list takes priority in
`lookupLast`, matching a JavaScript spread where the second object's
keys win. -/
theorem lookupLast_append {α : Type} (a b : List (String × α)) (k : String) :
    lookupLast (a ++ b) k =
      match lookupLast b k with
      | some v => some v
      | none => lookupLast a k := by
  induction a with
  | nil => cases hb : lookupLast b k <;> simp [lookupLast, hb]
  | cons e a ih =>
    simp only [List.cons_append, lookupLast, List.append_eq]
    rw [ih]
    cases hb : lookupLast b k <;> cases ha : lookupLast a k <;> simp [hb, ha]

/-- Prefixing every key with the sigil is injective on lookups. -/
theorem lookupLast_map_sigil {α : Type} (l : List (String × α)) (k : String) :
    lookupLast (l.map (fun kv => ("$" ++ kv.1, kv.2))) ("$" ++ k) =
      lookupLast l k := by
  induction l with
  | nil => rfl
  | cons e l ih =>
    simp only [List.map_cons, lookupLast, ih]
    cases h : lookupLast l k
    · have hiff : (("$" ++ e.1 : String) = "$" ++ k) ↔ e.1 = k := by
        constructor
        · intro hx
          have hd : ("$" ++ e.1 : String).data = ("$" ++ k : String).data := by
            rw [hx]
          simp only [String.data_append] at hd
          have : e.1.data = k.data := by
            simpa using hd
          cases e1 : e.1
          cases k1 : k
          simp_all
        · intro hx; rw [hx]
      simp [hiff]
    · simp

/-- Normalizing an override map whose keys are already valid relative
selectors is the identity. -/
theorem normalizeOverridesPaths_valid (store : Store) (ov : OverrideMap)
    (h : ∀ e ∈ ov, validRelative e.1 = true) :
    normalizeOverridesPaths store ov = ov := by
  induction ov with
  | nil => rfl
  | cons e ov ih =>
    have he : validRelative e.1 = true := h e (by simp)
    have hrest : ∀ x ∈ ov, validRelative x.1 = true := fun x hx => h x (by simp [hx])
    have hh : normalizeToRelativeSelector store e.1 = some e.1 := by
      unfold normalizeToRelativeSelector classifySelector
      simp [he, normalizeSelector]
    have ht : normalizeOverridesPaths store ov = ov := ih hrest
    unfold normalizeOverridesPaths
    rw [List.filterMap_cons]
    simp only [hh]
    unfold normalizeOverridesPaths at ht
    rw [ht]

/-! ## Claim C7 -/

/-- C7.  The substitution context a child is expanded with equals the
global variable set merged with the override entry for the child's
canonical path — the override value winning on key collision — and every
key of the context carries the `$` substitution sigil.  The hypothesis
that the override keys are valid relative selectors reflects
`provideOverrides`, which normalizes every key to canonical relative
form before storing it. -/
theorem claim_c7 (store : Store) (globals : VariableSet)
    (overrides : OverrideMap) (p : String)
    (hkeys : ∀ e ∈ overrides, validRelative e.1 = true) :
    (∀ e ∈ extractTemplateVariables store globals overrides p,
      ∃ k, e.1 = "$" ++ k) ∧
    (∀ k, lookupLast (extractTemplateVariables store globals overrides p)
        ("$" ++ k) =
      match lookupLast ((lookupLast overrides p).getD []) k with
      | some v => some v
      | none => lookupLast globals k) := by
  unfold extractTemplateVariables
  rw [normalizeOverridesPaths_valid store overrides hkeys]
  constructor
  · intro e he
    rcases List.mem_map.mp he with ⟨kv, _, hkv⟩
    exact ⟨kv.1, by rw [← hkv]⟩
  · intro k
    rw [lookupLast_map_sigil, lookupLast_append]
    cases lookupLast ((lookupLast overrides p).getD []) k <;> rfl

/-- C7 (witness). -/
theorem claim_c7_witness :
    (∀ e ∈ ([("scope/path", [("a", "2")])] : OverrideMap),
      validRelative e.1 = true) ∧
    ((∀ e ∈ extractTemplateVariables [] [("a", "1"), ("b", "3")]
        [("scope/path", [("a", "2")])] "scope/path", ∃ k, e.1 = "$" ++ k) ∧
     (∀ k, lookupLast (extractTemplateVariables [] [("a", "1"), ("b", "3")]
          [("scope/path", [("a", "2")])] "scope/path") ("$" ++ k) =
        match lookupLast ((lookupLast
            ([("scope/path", [("a", "2")])] : OverrideMap)
            "scope/path").getD []) k with
        | some v => some v
        | none => lookupLast [("a", "1"), ("b", "3")] k)) :=
  ⟨by decide, claim_c7 [] [("a", "1"), ("b", "3")]
    [("scope/path", [("a", "2")])] "scope/path" (by decide)⟩

/-! ## Claim C10 -/

/-- C10.  A syntactically valid root selector whose content lookup is
absent degrades to the empty fragment: the initial node has no
metadata, empty body, no variables and no references, the loop exits at
once, and the compose call returns the empty string instead of
failing.  (The absence warning is console output, which the model does
not carry.) -/
theorem claim_c10 (store : Store) (globals : VariableSet)
    (overrides : OverrideMap) (fuel : Nat) (sel : String)
    (hvalid : isValidTemplateSelector sel = true)
    (habsent : storeFind store sel = none) :
    composeFuel store globals overrides (fuel + 1) sel = .ok (some "") := by
  have hget : getTemplateContent store sel .relative = none := habsent
  have hnode : getNodeFromSelector store sel [] =
      { path := sel, frontmatter := none, content := "", varNames := [],
        references := [], ancestors := [] } := by
    unfold getNodeFromSelector parseMarkdown
    rw [hget]
    unfold filterLoopedReferences
    simp [strMem]
  unfold composeFuel
  rw [hvalid]
  unfold buildTemplateTree
  rw [hnode]
  simp [expandAndFlattenFuel, Except.map]

/-- C10 (witness). -/
theorem claim_c10_witness :
    isValidTemplateSelector "ghost" = true ∧
    storeFind [] "ghost" = none ∧
    composeFuel [] [] [] 1 "ghost" = .ok (some "") :=
  ⟨by decide, rfl, claim_c10 [] [] [] 0 "ghost" (by decide) rfl⟩

/-- Membership reading of the JavaScript `includes` test. -/
theorem strMem_iff {s : String} {l : List String} : strMem s l = true ↔ s ∈ l := by
  induction l with
  | nil => simp [strMem]
  | cons x rest ih =>
    simp only [strMem, Bool.or_eq_true, decide_eq_true_eq, ih, List.mem_cons]
    exact or_congr ⟨fun h => h.symm, fun h => h.symm⟩ Iff.rfl

/-- Deduplication only drops elements. -/
theorem dedupFirst_sub : ∀ {l : List String} {r : String},
    r ∈ dedupFirst l → r ∈ l := by
  intro l
  induction l with
  | nil => intro r h; simp [dedupFirst] at h
  | cons x rest ih =>
    intro r h
    simp only [dedupFirst, List.mem_cons, List.mem_filter] at h
    rcases h with h | ⟨h, _⟩
    · exact List.mem_cons.mpr (Or.inl h)
    · exact List.mem_cons.mpr (Or.inr (ih h))

/-- Invariant of the data model: a node's path is not among its
ancestors, no reference is an ancestor, and the node does not reference
itself. -/
def nodeInvariant (n : TemplateTreeNode) : Prop :=
  n.path ∉ n.ancestors ∧ (∀ r ∈ n.references, r ∉ n.ancestors) ∧
  n.path ∉ n.references

instance (n : TemplateTreeNode) : Decidable (nodeInvariant n) := by
  unfold nodeInvariant
  infer_instance

/-- The removal helper does not touch the path. -/
@[simp] theorem removeReferenceFromNode_path (m : TemplateTreeNode)
    (tr : List String) : (removeReferenceFromNode m tr).path = m.path := rfl

/-- The removal helper does not touch the ancestors. -/
@[simp] theorem removeReferenceFromNode_ancestors (m : TemplateTreeNode)
    (tr : List String) : (removeReferenceFromNode m tr).ancestors = m.ancestors := rfl

/-- Membership in the references of a node after removal. -/
theorem mem_removeReferenceFromNode {m : TemplateTreeNode} {tr : List String}
    {r : String} :
    r ∈ (removeReferenceFromNode m tr).references ↔ r ∈ m.references ∧ r ∉ tr := by
  show r ∈ m.references.filter (fun x => !strMem x tr) ↔ _
  rw [List.mem_filter]
  constructor
  · rintro ⟨h1, h2⟩
    refine ⟨h1, fun hm => ?_⟩
    rw [strMem_iff.mpr hm] at h2
    simp at h2
  · rintro ⟨h1, h2⟩
    refine ⟨h1, ?_⟩
    cases hs : strMem r tr
    · rfl
    · exact absurd (strMem_iff.mp hs) h2

/-- The ancestor-loop filtering stage establishes the invariant on a node
that already has no self-reference. -/
theorem loopStage_inv (m : TemplateTreeNode)
    (hpa : m.path ∉ m.ancestors) (hps : m.path ∉ m.references) :
    nodeInvariant
      (if (m.references.filter (fun r => strMem r m.ancestors)).isEmpty then m
       else removeReferenceFromNode m
         (m.references.filter (fun r => strMem r m.ancestors))) := by
  by_cases h2 : (m.references.filter (fun r => strMem r m.ancestors)).isEmpty = true
  · rw [if_pos h2]
    refine ⟨hpa, ?_, hps⟩
    intro r hr hanc
    rw [List.isEmpty_iff] at h2
    have hmem : r ∈ m.references.filter (fun r => strMem r m.ancestors) :=
      List.mem_filter.mpr ⟨hr, strMem_iff.mpr hanc⟩
    rw [h2] at hmem
    simp at hmem
  · rw [if_neg h2]
    refine ⟨by simpa using hpa, ?_, ?_⟩
    · intro r hr
      rw [mem_removeReferenceFromNode] at hr
      simp only [removeReferenceFromNode_ancestors]
      intro hanc
      exact hr.2 (List.mem_filter.mpr ⟨hr.1, strMem_iff.mpr hanc⟩)
    · simp only [removeReferenceFromNode_path]
      intro hmem
      rw [mem_removeReferenceFromNode] at hmem
      exact hps hmem.1

/-- Loop filtering establishes the invariant on any node whose path is
not among its ancestors. -/
theorem filterLooped_inv (n : TemplateTreeNode) (h : n.path ∉ n.ancestors) :
    nodeInvariant (filterLoopedReferences n) := by
  unfold filterLoopedReferences
  by_cases h1 : strMem n.path n.references = true
  · rw [if_pos h1]
    have hps : (removeReferenceFromNode n [n.path]).path ∉
        (removeReferenceFromNode n [n.path]).references := by
      simp only [removeReferenceFromNode_path]
      intro hmem
      rw [mem_removeReferenceFromNode] at hmem
      exact hmem.2 (by simp)
    exact loopStage_inv (removeReferenceFromNode n [n.path]) (by simpa using h) hps
  · rw [if_neg h1]
    exact loopStage_inv n h (fun hmem => h1 (strMem_iff.mpr hmem))

/-- The parsed node carries the selector as its path. -/
theorem parseMarkdown_path (store : Store) (sel : String) :
    (parseMarkdown store sel).path = sel := by
  unfold parseMarkdown
  cases h : getTemplateContent store sel .relative <;> simp

/-- Node construction from a selector preserves the invariant whenever
the selector is not among the supplied ancestors, which is how every
composition call site invokes it. -/
theorem getNode_inv (store : Store) (sel : String) (anc : List String)
    (h : sel ∉ anc) : nodeInvariant (getNodeFromSelector store sel anc) := by
  apply filterLooped_inv
  show (parseMarkdown store sel).path ∉ anc
  rw [parseMarkdown_path]
  exact h

/-- Every reference pushed by the scan with loop removal enabled differs
from the current path and avoids the ancestor chain. -/
theorem scanRefs_sound (store : Store) (p : String) (anc : List String)
    (ni : Bool) :
    ∀ (fuel pos : Nat) (l : List Char) (r : String),
      r ∈ (scanRefs store true (some p) anc ni fuel pos l).refs →
      r ≠ p ∧ r ∉ anc := by
  intro fuel
  induction fuel with
  | zero => intro pos l r hr; simp [scanRefs] at hr
  | succ fuel ih =>
    intro pos l r hr
    cases l with
    | nil => simp [scanRefs] at hr
    | cons c cs =>
      rw [scanRefs] at hr
      cases htok : tryRefToken (c :: cs) with
      | none =>
        rw [htok] at hr
        exact ih (pos + 1) cs r hr
      | some tok =>
        rw [htok] at hr
        obtain ⟨ref, len, rest⟩ := tok
        dsimp only at hr
        by_cases hvar : isVariableToken ref = true
        · rw [if_pos hvar] at hr
          exact ih (pos + len) rest r hr
        · rw [if_neg hvar] at hr
          by_cases hp : (normalizeToRelativeSelector store ref).getD ref = p
          · rw [if_pos hp] at hr
            exact ih (pos + len) rest r hr
          · rw [if_neg hp] at hr
            by_cases hanc : strMem ((normalizeToRelativeSelector store ref).getD ref) anc = true
            · rw [if_pos hanc] at hr
              exact ih (pos + len) rest r hr
            · rw [if_neg hanc] at hr
              rcases List.mem_cons.mp hr with hre | hre
              · subst hre
                exact ⟨hp, fun hm => hanc (strMem_iff.mpr hm)⟩
              · exact ih (pos + len) rest r hre

/-- Extraction of membership from a successful sequential map. -/
theorem mapMExcept_mem {α β : Type} (f : α → Except String β) :
    ∀ (l : List α) (ys : List β), mapMExcept f l = .ok ys →
      ∀ y ∈ ys, ∃ x ∈ l, f x = .ok y := by
  intro l
  induction l with
  | nil =>
    intro ys h y hy
    simp only [mapMExcept] at h
    cases h
    simp at hy
  | cons x rest ih =>
    intro ys h y hy
    simp only [mapMExcept] at h
    cases hfx : f x with
    | error e => rw [hfx] at h; simp [Bind.bind, Except.bind] at h
    | ok y1 =>
      rw [hfx] at h
      cases hrest : mapMExcept f rest with
      | error e => rw [hrest] at h; simp [Bind.bind, Except.bind] at h
      | ok ys1 =>
        rw [hrest] at h
        simp only [Bind.bind, Except.bind, pure, Except.pure] at h
        cases h
        rcases List.mem_cons.mp hy with hy1 | hy1
        · exact ⟨x, by simp, by rw [hfx, hy1]⟩
        · rcases ih ys1 hrest y hy1 with ⟨x1, hx1, hfx1⟩
          exact ⟨x1, by simp [hx1], hfx1⟩

/-- Every child produced by `attachChildren` from a node satisfying the
invariant satisfies it as well. -/
theorem attachChildren_inv (store : Store) (globals : VariableSet)
    (overrides : OverrideMap) (node : TemplateTreeNode)
    (res : TemplateTreeNode × List TemplateTreeNode)
    (hinv : nodeInvariant node)
    (h : attachChildren store globals overrides node = .ok res) :
    ∀ c ∈ res.2, nodeInvariant c := by
  intro c hc
  unfold attachChildren at h
  cases hmap : mapMExcept (fun ref => do
      let childNode := getNodeFromSelector store ref (node.ancestors ++ [node.path])
      let childTemplateVariables :=
        extractTemplateVariables store globals overrides childNode.path
      let expandedContent ← render childNode.content childTemplateVariables
      pure { childNode with content := expandedContent }) node.references with
  | error e => rw [hmap] at h; simp [Bind.bind, Except.bind] at h
  | ok children =>
    rw [hmap] at h
    simp only [Bind.bind, Except.bind, pure, Except.pure] at h
    cases h
    dsimp only at hc
    rcases mapMExcept_mem _ node.references children hmap c hc with ⟨ref, href, hok⟩
    dsimp only at hok
    have hrefp : ref ∉ node.ancestors ++ [node.path] := by
      intro hm
      rcases List.mem_append.mp hm with hm | hm
      · exact hinv.2.1 ref href hm
      · rw [List.mem_singleton] at hm
        exact hinv.2.2 (hm ▸ href)
    have hchild := getNode_inv store ref (node.ancestors ++ [node.path]) hrefp
    cases hrender : render (getNodeFromSelector store ref
        (node.ancestors ++ [node.path])).content
        (extractTemplateVariables store globals overrides
          (getNodeFromSelector store ref (node.ancestors ++ [node.path])).path) with
    | error e => rw [hrender] at hok; simp [Bind.bind, Except.bind] at hok
    | ok expanded =>
      rw [hrender] at hok
      simp only [Bind.bind, Except.bind, pure, Except.pure] at hok
      cases hok
      exact hchild

/-- Flattening a node that satisfies the invariant yields a node that
satisfies it: the freshly extracted references went through loop
filtering against the unchanged path and ancestors. -/
theorem flatten_inv (store : Store) (node : TemplateTreeNode)
    (children : List TemplateTreeNode) (n' : TemplateTreeNode)
    (hinv : nodeInvariant node)
    (h : flattenChildrenAndExpandContent store node children = .ok n') :
    nodeInvariant n' := by
  unfold flattenChildrenAndExpandContent at h
  by_cases hc : children.isEmpty = true
  · rw [if_pos hc] at h
    cases h
    exact hinv
  · rw [if_neg hc] at h
    dsimp only at h
    cases hrender : render node.content (children.map fun c => (c.path, c.content)) with
    | error e => rw [hrender] at h; simp [Bind.bind, Except.bind] at h
    | ok expanded =>
      rw [hrender] at h
      simp only [Bind.bind, Except.bind, pure, Except.pure] at h
      cases h
      refine ⟨hinv.1, ?_, ?_⟩
      · intro r hr
        have hr1 := dedupFirst_sub hr
        exact fun hm => (scanRefs_sound store node.path node.ancestors false _ _ _ r hr1).2 hm
      · intro hmem
        have hr1 := dedupFirst_sub hmem
        exact (scanRefs_sound store node.path node.ancestors false _ _ _ _ hr1).1 rfl

/-- C8.  Every tree node the composition produces satisfies, after loop
filtering, the data-model invariant: the path is not an ancestor, no
reference is an ancestor, and the node does not reference itself.  The
three conjuncts cover node construction (for any selector not already on
the supplied ancestor chain, which is how composition always calls it),
the children attached during an iteration, and the node produced by a
flatten step. -/
theorem claim_c8 :
    (∀ (store : Store) (sel : String) (anc : List String), sel ∉ anc →
      nodeInvariant (getNodeFromSelector store sel anc)) ∧
    (∀ (store : Store) (globals : VariableSet) (overrides : OverrideMap)
      (node : TemplateTreeNode) (res : TemplateTreeNode × List TemplateTreeNode),
      nodeInvariant node → attachChildren store globals overrides node = .ok res →
      ∀ c ∈ res.2, nodeInvariant c) ∧
    (∀ (store : Store) (node : TemplateTreeNode)
      (children : List TemplateTreeNode) (n' : TemplateTreeNode),
      nodeInvariant node →
      flattenChildrenAndExpandContent store node children = .ok n' →
      nodeInvariant n') :=
  ⟨getNode_inv,
   fun store g o node res hinv h => attachChildren_inv store g o node res hinv h,
   fun store node cs n' hinv h => flatten_inv store node cs n' hinv h⟩

/-- C8 (witness). -/
theorem claim_c8_witness :
    ("root" ∉ ([] : List String)) ∧
    nodeInvariant (getNodeFromSelector storeC2 "root" []) :=
  ⟨by simp, claim_c8.1 storeC2 "root" [] (by simp)⟩

/-- A character list free of both brace code points. -/
def braceFree (l : List Char) : Bool :=
  l.all (fun c => !(c = obrace) && !(c = cbrace))

/-- Entity expansion never introduces braces. -/
theorem braceFree_entityChar (c : Char) (h1 : (c = obrace) = False)
    (h2 : (c = cbrace) = False) : braceFree (entityChar c) = true := by
  unfold entityChar
  split_ifs <;> first
    | decide
    | simp [braceFree, h1, h2]

/-- Escaping a brace-free text yields brace-free text. -/
theorem braceFree_escList (l : List Char) (h : braceFree l = true) :
    braceFree (escList l) = true := by
  induction l with
  | nil => rfl
  | cons c cs ih =>
    rw [show escList (c :: cs) = entityChar c ++ escList cs from rfl]
    simp only [braceFree, List.all_append, Bool.and_eq_true] at *
    simp only [List.all_cons, Bool.and_eq_true] at h
    refine ⟨?_, ih h.2⟩
    have h1 : (c = obrace) = False := by
      simp only [Bool.and_eq_true, Bool.not_eq_true', decide_eq_false_iff_not] at h
      simp [h.1.1]
    have h2 : (c = cbrace) = False := by
      simp only [Bool.and_eq_true, Bool.not_eq_true', decide_eq_false_iff_not] at h
      simp [h.1.2]
    exact braceFree_entityChar c h1 h2

/-- The reference scanner finds nothing in brace-free text. -/
theorem scanRefs_braceFree (store : Store) (rl : Bool) (cp : Option String)
    (anc : List String) (ni : Bool) :
    ∀ (fuel pos : Nat) (l : List Char), braceFree l = true →
      scanRefs store rl cp anc ni fuel pos l = ⟨[], [], []⟩ := by
  intro fuel
  induction fuel with
  | zero => intro pos l _; rfl
  | succ fuel ih =>
    intro pos l h
    cases l with
    | nil => rfl
    | cons c cs =>
      simp only [braceFree, List.all_cons, Bool.and_eq_true, Bool.not_eq_true',
        decide_eq_false_iff_not] at h
      have htok : tryRefToken (c :: cs) = none := by
        unfold tryRefToken
        cases cs with
        | nil => rfl
        | cons c2 cs2 =>
          simp [h.1.1]
      rw [scanRefs, htok]
      exact ih (pos + 1) cs (by
        simp only [braceFree, List.all_eq_true, Bool.and_eq_true,
          Bool.not_eq_true', decide_eq_false_iff_not]
        intro x hx
        have := h.2
        simp only [List.all_eq_true, Bool.and_eq_true, Bool.not_eq_true',
          decide_eq_false_iff_not] at this
        exact this x hx)

/-- Parent node used by the escaping theorem: its body embeds one child
reference token for `x` between plain text. -/
def nodeC9 : TemplateTreeNode :=
  { path := "parent9", frontmatter := none,
    content := "A \x7b\x7b x \x7d\x7d B", varNames := [],
    references := ["x"], ancestors := [] }

/-- Child node used by the escaping theorem, carrying an arbitrary
rendered body. -/
def childC9 (v : String) : TemplateTreeNode :=
  { path := "x", frontmatter := none, content := v, varNames := [],
    references := [], ancestors := ["parent9"] }

/-- C9.  Substitution through a double-brace token is not verbatim:
flattening a child whose rendered body is `v` into the parent template
produces `A ` followed by `escapeHtml v` and ` B`, the child body being
pushed through mustache's HTML escape; a variable value interpolated
through a double-brace token is escaped the same way, and the escape
maps each HTML-special character to its entity (`/` to `&#x2F;`, `&` to
`&amp;`, `<` to `&lt;`).  The hypothesis keeps `v` free of braces so the
re-extraction step is inert (a brace-free body has no tokens). -/
theorem claim_c9 (v : String) (hv : braceFree v.data = true) :
    flattenChildrenAndExpandContent [] nodeC9 [childC9 v] =
      .ok { nodeC9 with
        content := "A " ++ escapeHtml v ++ " B",
        references := [] } ∧
    render "\x7b\x7b $w \x7d\x7d" [("$w", v)] = .ok (escapeHtml v) ∧
    escapeHtml "/" = "&#x2F;" ∧ escapeHtml "&" = "&amp;" ∧
    escapeHtml "<" = "&lt;" := by
  have hcode : braceFree (("A ".data ++ escList v.data ++ " B".data)) = true := by
    simp only [braceFree, List.all_append, Bool.and_eq_true]
    refine ⟨⟨by decide, ?_⟩, by decide⟩
    have := braceFree_escList v.data hv
    simpa [braceFree] using this
  refine ⟨?_, ?_, by decide, by decide, by decide⟩
  · have hrender : render nodeC9.content [("x", v)] =
        Except.ok ((['A', ' '] ++ escList v.data ++ [' ', 'B']).asString) := rfl
    unfold flattenChildrenAndExpandContent
    rw [if_neg (by simp : ¬(([childC9 v] : List TemplateTreeNode).isEmpty = true))]
    dsimp only
    rw [show (List.map (fun c => (c.path, c.content)) [childC9 v]) =
      [("x", v)] from rfl]
    rw [hrender]
    simp only [Bind.bind, Except.bind]
    have hscan : scanRefs [] true (some nodeC9.path) nodeC9.ancestors false
        (((['A', ' '] ++ escList v.data ++ [' ', 'B']).asString).data.length + 1) 0
        ((['A', ' '] ++ escList v.data ++ [' ', 'B']).asString).data = ⟨[], [], []⟩ :=
      scanRefs_braceFree [] true (some nodeC9.path) nodeC9.ancestors false _ 0 _ hcode
    unfold extractReferencesFromContent
    rw [hscan]
    rfl
  · have h2 : render "\x7b\x7b $w \x7d\x7d" [("$w", v)] =
        Except.ok ((escList v.data ++ []).asString) := rfl
    rw [h2, List.append_nil]
    rfl

/-- C9 (witness). -/
theorem claim_c9_witness :
    braceFree ("a/b&c".data) = true ∧
    (flattenChildrenAndExpandContent [] nodeC9 [childC9 "a/b&c"] =
        .ok { nodeC9 with
          content := "A " ++ escapeHtml "a/b&c" ++ " B",
          references := [] } ∧
      render "\x7b\x7b $w \x7d\x7d" [("$w", "a/b&c")] = .ok (escapeHtml "a/b&c") ∧
      escapeHtml "/" = "&#x2F;" ∧ escapeHtml "&" = "&amp;" ∧
      escapeHtml "<" = "&lt;") :=
  ⟨by decide, claim_c9 "a/b&c" (by decide)⟩
